import Mathlib

/-!
Formal model of the route-batching core of the pizzasquare delivery dashboard.

The repository duplicates one algorithm — "group orders into 45-minute round
trip routes using nearest neighbor" — across three component files:

* `src/components/DeliveryRoutes.tsx` (`groupOrdersIntoRoutes`),
* `src/components/MapboxMap.tsx` (`groupOrdersIntoRoutes`),
* the variant in `src/unnamed/part_006` (`groupOrdersIntoRoutes` together
  with `calculateRouteTime`).

Each copy is translated separately below (namespaces `DeliveryRoutes`,
`MapboxMap`, `DeliveryRoutesTimed`), mirroring the source loops:

* JavaScript numbers are modelled as exact rationals (`ℚ`); the constants
  2.5, 3, 35 and 45 of the source are exact in this model.
* The source's Haversine `calculateDistance` is a transcendental function;
  the batching loops are therefore parametrised by the distance estimator
  `d : Location → Location → ℚ` at which every source call site invokes the
  Haversine.  All structural theorems below hold for every estimator (or for
  every estimator satisfying the triangle inequality, where stated); the
  Haversine itself is modelled separately over ℝ (`calculateDistance`) for
  its algebraic properties.
* The two `while` loops are rendered as fuel-indexed structural recursions;
  the fuel `pool.length` is always sufficient because every outer iteration
  consumes at least one destination (proved below).
* The `googleMapsUrl` field (a presentation-only deep link built from street
  address strings) and other fields the algorithm never reads (customer
  name, phone, items, status, …) are not modelled; no claim concerns them.
-/

namespace Pizza

/-- A latitude/longitude pair, as in the source's `{lat, lng}` records. -/
structure Location where
  lat : ℚ
  lng : ℚ
deriving DecidableEq

/-- The fields of the source's `Order` that the batching algorithm reads:
`id`, `deliveryLocation` and `totalAmount`.  All other fields are carried
through unchanged by the source and are omitted here. -/
structure Order where
  id : String
  deliveryLocation : Location
  totalAmount : ℚ
deriving DecidableEq

/-- Constant `restaurantLocation` from `src/data/realData.ts`
(lat 41.5623, lng -72.6509; the name/address strings are not modelled). -/
def restaurantLocation : Location :=
  ⟨415623 / 10000, -726509 / 10000⟩

/-- The type of the distance estimator the batching loop calls
(`calculateDistance` in every copy of the source). -/
abbrev Dist : Type := Location → Location → ℚ

namespace DeliveryRoutes

/-- The output record of `groupOrdersIntoRoutes` in `DeliveryRoutes.tsx`
(sans the unmodelled `googleMapsUrl` field). -/
structure RouteGroup where
  id : String
  name : String
  orders : List Order
  totalValue : ℚ
deriving DecidableEq

/-- The "find the nearest remaining order" scan of `DeliveryRoutes.tsx`
(lines 102-119): a linear `forEach` keeping the first strict minimum,
starting from `nearestDistance = Infinity` (modelled as `none`) and
`nearestIndex = 0`. -/
def findNearestGo (d : Dist) (cur : Location) :
    List Order → Nat → Option ℚ → Nat → Nat
  | [], _, _, bestIdx => bestIdx
  | o :: rest, i, best, bestIdx =>
    match best with
    | none => findNearestGo d cur rest (i + 1) (some (d cur o.deliveryLocation)) i
    | some b =>
      if d cur o.deliveryLocation < b then
        findNearestGo d cur rest (i + 1) (some (d cur o.deliveryLocation)) i
      else
        findNearestGo d cur rest (i + 1) (some b) bestIdx

/-- Index of the first-encountered nearest pool member to `cur`. -/
def findNearest (d : Dist) (cur : Location) (pool : List Order) : Nat :=
  findNearestGo d cur pool 0 none 0

/-- The inner `while (nextOrder && totalTime < 35)` loop of
`DeliveryRoutes.tsx` (lines 73-123), one recursive call per iteration.
State: accumulated `route`, remaining `pool`, `currentLocation`,
`totalTime`, and the candidate's index `idx` in `pool`.  Result: the
finished route, the remaining pool, and — as an observation of how the
loop exited — `some cand` when the loop `break`s because adding `cand`
would exceed 45 minutes, `none` otherwise.  The fuel argument only bounds
the iteration count; `pool.length` is always enough. -/
def buildRoute (d : Dist) (origin : Location) :
    Nat → List Order → List Order → Location → ℚ → Nat →
    List Order × List Order × Option Order
  | 0, route, pool, _, _, _ => (route, pool, none)
  | fuel + 1, route, pool, cur, totalTime, idx =>
    match pool[idx]? with
    | none => (route, pool, none)
    | some cand =>
      if totalTime < 35 then
        if totalTime + (d cur cand.deliveryLocation * (5 / 2) + 3) +
            d cand.deliveryLocation origin * (5 / 2) > 45 ∧ route ≠ [] then
          (route, pool, some cand)
        else
          if pool.eraseIdx idx = [] then
            (route ++ [cand], pool.eraseIdx idx, none)
          else
            buildRoute d origin fuel (route ++ [cand]) (pool.eraseIdx idx)
              cand.deliveryLocation
              (totalTime + (d cur cand.deliveryLocation * (5 / 2) + 3))
              (findNearest d cand.deliveryLocation (pool.eraseIdx idx))
      else (route, pool, none)

/-- The outer `while (unassignedOrders.length > 0)` loop of
`DeliveryRoutes.tsx` (lines 64-138): each iteration builds one route
starting from the first unassigned order and records it with its
sequence number and aggregate value. -/
def groupLoop (d : Dist) (origin : Location) :
    Nat → List Order → Nat → List RouteGroup
  | 0, _, _ => []
  | _ + 1, [], _ => []
  | fuel + 1, p :: ps, routeCounter =>
    let result := buildRoute d origin (p :: ps).length [] (p :: ps) origin 0 0
    if result.1 = [] then groupLoop d origin fuel result.2.1 routeCounter
    else
      ⟨s!"route_{routeCounter}", s!"Route {routeCounter}", result.1,
        result.1.foldl (fun s o => s + o.totalAmount) 0⟩
        :: groupLoop d origin fuel result.2.1 (routeCounter + 1)

/-- Function `groupOrdersIntoRoutes` of `DeliveryRoutes.tsx` (lines 57-141),
parametrised by the distance estimator `d`. -/
def groupOrdersIntoRoutes (d : Dist) (orders : List Order) : List RouteGroup :=
  if orders = [] then []
  else groupLoop d restaurantLocation orders.length orders 1

end DeliveryRoutes

namespace MapboxMap

/-- The ten-entry hex colour palette of `MapboxMap.tsx`. -/
def ROUTE_COLORS : List String :=
  ["#ef4444", "#3b82f6", "#10b981", "#f59e0b", "#8b5cf6",
   "#ec4899", "#f97316", "#06b6d4", "#84cc16", "#6366f1"]

/-- The output record of `groupOrdersIntoRoutes` in `MapboxMap.tsx`. -/
structure RouteGroup where
  id : String
  orders : List Order
  color : String
deriving DecidableEq

/-- The nearest-remaining scan of `MapboxMap.tsx` (verbatim copy of the one
in `DeliveryRoutes.tsx`). -/
def findNearestGo (d : Dist) (cur : Location) :
    List Order → Nat → Option ℚ → Nat → Nat
  | [], _, _, bestIdx => bestIdx
  | o :: rest, i, best, bestIdx =>
    match best with
    | none => findNearestGo d cur rest (i + 1) (some (d cur o.deliveryLocation)) i
    | some b =>
      if d cur o.deliveryLocation < b then
        findNearestGo d cur rest (i + 1) (some (d cur o.deliveryLocation)) i
      else
        findNearestGo d cur rest (i + 1) (some b) bestIdx

/-- Index of the first-encountered nearest pool member to `cur`. -/
def findNearest (d : Dist) (cur : Location) (pool : List Order) : Nat :=
  findNearestGo d cur pool 0 none 0

/-- The inner loop of `MapboxMap.tsx` (lines 55-105), a verbatim copy of the
one in `DeliveryRoutes.tsx`; modelled the same way. -/
def buildRoute (d : Dist) (origin : Location) :
    Nat → List Order → List Order → Location → ℚ → Nat →
    List Order × List Order × Option Order
  | 0, route, pool, _, _, _ => (route, pool, none)
  | fuel + 1, route, pool, cur, totalTime, idx =>
    match pool[idx]? with
    | none => (route, pool, none)
    | some cand =>
      if totalTime < 35 then
        if totalTime + (d cur cand.deliveryLocation * (5 / 2) + 3) +
            d cand.deliveryLocation origin * (5 / 2) > 45 ∧ route ≠ [] then
          (route, pool, some cand)
        else
          if pool.eraseIdx idx = [] then
            (route ++ [cand], pool.eraseIdx idx, none)
          else
            buildRoute d origin fuel (route ++ [cand]) (pool.eraseIdx idx)
              cand.deliveryLocation
              (totalTime + (d cur cand.deliveryLocation * (5 / 2) + 3))
              (findNearest d cand.deliveryLocation (pool.eraseIdx idx))
      else (route, pool, none)

/-- The outer loop of `MapboxMap.tsx` (lines 47-118): like the one in
`DeliveryRoutes.tsx` but recording `{id, orders, color}` with the colour
cycled from the palette. -/
def groupLoop (d : Dist) (origin : Location) :
    Nat → List Order → Nat → List RouteGroup
  | 0, _, _ => []
  | _ + 1, [], _ => []
  | fuel + 1, p :: ps, routeCounter =>
    let result := buildRoute d origin (p :: ps).length [] (p :: ps) origin 0 0
    if result.1 = [] then groupLoop d origin fuel result.2.1 routeCounter
    else
      ⟨s!"route_{routeCounter}", result.1,
        ROUTE_COLORS.getD ((routeCounter - 1) % ROUTE_COLORS.length) ""⟩
        :: groupLoop d origin fuel result.2.1 (routeCounter + 1)

/-- Function `groupOrdersIntoRoutes` of `MapboxMap.tsx` (lines 36-120),
parametrised by the distance estimator `d`. -/
def groupOrdersIntoRoutes (d : Dist) (orders : List Order) : List RouteGroup :=
  if orders = [] then []
  else groupLoop d restaurantLocation orders.length orders 1

end MapboxMap

namespace DeliveryRoutesTimed

/-- The ten-entry hex colour palette of the `part_006` variant. -/
def ROUTE_COLORS : List String :=
  ["#ef4444", "#3b82f6", "#10b981", "#f59e0b", "#8b5cf6",
   "#ec4899", "#f97316", "#06b6d4", "#84cc16", "#6366f1"]

/-- The output record of `groupOrdersIntoRoutes` in `src/unnamed/part_006`
(sans the unmodelled `googleMapsUrl`).  `estimatedTime` is the value of
`calculateRouteTime`, an integer because the source rounds it. -/
structure RouteGroup where
  id : String
  name : String
  orders : List Order
  totalValue : ℚ
  estimatedTime : ℤ
  color : String
deriving DecidableEq

/-- JavaScript's `Math.round`: round half toward positive infinity. -/
def jsRound (q : ℚ) : ℤ := ⌊q + 1 / 2⌋

/-- The pre-rounding total of `calculateRouteTime` in `part_006`
(lines 63-89): walk the stops in visiting order from the restaurant,
adding `distance * 2.5 + 3` per stop, then add the return leg's
`distance * 2.5` with no service time. -/
def routeTimeRaw (d : Dist) (orders : List Order) : ℚ :=
  (orders.foldl
      (fun (st : ℚ × Location) o =>
        (st.1 + (d st.2 o.deliveryLocation * (5 / 2) + 3), o.deliveryLocation))
      (0, restaurantLocation)).1 +
    d (orders.foldl
        (fun (st : ℚ × Location) o =>
          (st.1 + (d st.2 o.deliveryLocation * (5 / 2) + 3), o.deliveryLocation))
        (0, restaurantLocation)).2 restaurantLocation * (5 / 2)

/-- Function `calculateRouteTime` of `part_006` (lines 63-89): 0 for an empty list,
otherwise the walked total rounded with `Math.round`. -/
def calculateRouteTime (d : Dist) (orders : List Order) : ℤ :=
  if orders = [] then 0 else jsRound (routeTimeRaw d orders)

/-- The nearest-remaining scan of `part_006` (verbatim copy). -/
def findNearestGo (d : Dist) (cur : Location) :
    List Order → Nat → Option ℚ → Nat → Nat
  | [], _, _, bestIdx => bestIdx
  | o :: rest, i, best, bestIdx =>
    match best with
    | none => findNearestGo d cur rest (i + 1) (some (d cur o.deliveryLocation)) i
    | some b =>
      if d cur o.deliveryLocation < b then
        findNearestGo d cur rest (i + 1) (some (d cur o.deliveryLocation)) i
      else
        findNearestGo d cur rest (i + 1) (some b) bestIdx

/-- Index of the first-encountered nearest pool member to `cur`. -/
def findNearest (d : Dist) (cur : Location) (pool : List Order) : Nat :=
  findNearestGo d cur pool 0 none 0

/-- The inner loop of `part_006` (lines 108-158), a verbatim copy of the
one in `DeliveryRoutes.tsx`; modelled the same way. -/
def buildRoute (d : Dist) (origin : Location) :
    Nat → List Order → List Order → Location → ℚ → Nat →
    List Order × List Order × Option Order
  | 0, route, pool, _, _, _ => (route, pool, none)
  | fuel + 1, route, pool, cur, totalTime, idx =>
    match pool[idx]? with
    | none => (route, pool, none)
    | some cand =>
      if totalTime < 35 then
        if totalTime + (d cur cand.deliveryLocation * (5 / 2) + 3) +
            d cand.deliveryLocation origin * (5 / 2) > 45 ∧ route ≠ [] then
          (route, pool, some cand)
        else
          if pool.eraseIdx idx = [] then
            (route ++ [cand], pool.eraseIdx idx, none)
          else
            buildRoute d origin fuel (route ++ [cand]) (pool.eraseIdx idx)
              cand.deliveryLocation
              (totalTime + (d cur cand.deliveryLocation * (5 / 2) + 3))
              (findNearest d cand.deliveryLocation (pool.eraseIdx idx))
      else (route, pool, none)

/-- The outer loop of `part_006` (lines 99-176), recording each route with
its aggregate value, its `calculateRouteTime` estimate and a palette
colour. -/
def groupLoop (d : Dist) (origin : Location) :
    Nat → List Order → Nat → List RouteGroup
  | 0, _, _ => []
  | _ + 1, [], _ => []
  | fuel + 1, p :: ps, routeCounter =>
    let result := buildRoute d origin (p :: ps).length [] (p :: ps) origin 0 0
    if result.1 = [] then groupLoop d origin fuel result.2.1 routeCounter
    else
      ⟨s!"route_{routeCounter}", s!"Route {routeCounter}", result.1,
        result.1.foldl (fun s o => s + o.totalAmount) 0,
        calculateRouteTime d result.1,
        ROUTE_COLORS.getD ((routeCounter - 1) % ROUTE_COLORS.length) ""⟩
        :: groupLoop d origin fuel result.2.1 (routeCounter + 1)

/-- Function `groupOrdersIntoRoutes` of `part_006` (lines 92-178), parametrised by
the distance estimator `d`. -/
def groupOrdersIntoRoutes (d : Dist) (orders : List Order) : List RouteGroup :=
  if orders = [] then []
  else groupLoop d restaurantLocation orders.length orders 1

end DeliveryRoutesTimed

/-- Service-inclusive driving time of a stop list visited in order from
`cur`: `distance * 2.5 + 3` per leg.  This is the specification-side
measure of the `totalTime` accumulator of the batching loops. -/
def legsTime (d : Dist) : Location → List Order → ℚ
  | _, [] => 0
  | cur, o :: rest =>
    (d cur o.deliveryLocation * (5 / 2) + 3) + legsTime d o.deliveryLocation rest

/-- Location of the last stop of a list, `cur` when the list is empty. -/
def endLoc : Location → List Order → Location
  | cur, [] => cur
  | _, o :: rest => endLoc o.deliveryLocation rest

/-- Minutes of a direct round trip from `origin` to a single destination and
back: outbound leg with service time plus plain return leg. -/
def roundTripTime (d : Dist) (origin : Location) (o : Order) : ℚ :=
  d origin o.deliveryLocation * (5 / 2) + 3 + d o.deliveryLocation origin * (5 / 2)

/-- JavaScript's `Math.atan2` on finite real arguments: the angle of the
point `(x, y)`, in `(-π, π]`. -/
noncomputable def atan2 (y x : ℝ) : ℝ :=
  if 0 < x then Real.arctan (y / x)
  else if x < 0 then
    if 0 ≤ y then Real.arctan (y / x) + Real.pi else Real.arctan (y / x) - Real.pi
  else
    if 0 < y then Real.pi / 2 else if y < 0 then -(Real.pi / 2) else 0

/-- Function `calculateDistance` as written identically in `DeliveryRoutes.tsx`
(lines 34-44), `MapboxMap.tsx` and `part_006`: the Haversine formula with
Earth radius 3959 miles, over real numbers (the idealisation of the
source's IEEE doubles). -/
noncomputable def calculateDistance (lat1 lon1 lat2 lon2 : ℝ) : ℝ :=
  3959 *
    (2 * atan2
      (Real.sqrt
        (Real.sin ((lat2 - lat1) * Real.pi / 180 / 2) *
            Real.sin ((lat2 - lat1) * Real.pi / 180 / 2) +
          Real.cos (lat1 * Real.pi / 180) * Real.cos (lat2 * Real.pi / 180) *
            Real.sin ((lon2 - lon1) * Real.pi / 180 / 2) *
            Real.sin ((lon2 - lon1) * Real.pi / 180 / 2)))
      (Real.sqrt
        (1 -
          (Real.sin ((lat2 - lat1) * Real.pi / 180 / 2) *
              Real.sin ((lat2 - lat1) * Real.pi / 180 / 2) +
            Real.cos (lat1 * Real.pi / 180) * Real.cos (lat2 * Real.pi / 180) *
              Real.sin ((lon2 - lon1) * Real.pi / 180 / 2) *
              Real.sin ((lon2 - lon1) * Real.pi / 180 / 2)))))

theorem calculateDistance_symm (lat1 lon1 lat2 lon2 : ℝ) :
    calculateDistance lat1 lon1 lat2 lon2 = calculateDistance lat2 lon2 lat1 lon1 := by
  unfold calculateDistance
  have ha :
      Real.sin ((lat1 - lat2) * Real.pi / 180 / 2) *
          Real.sin ((lat1 - lat2) * Real.pi / 180 / 2) +
        Real.cos (lat2 * Real.pi / 180) * Real.cos (lat1 * Real.pi / 180) *
          Real.sin ((lon1 - lon2) * Real.pi / 180 / 2) *
          Real.sin ((lon1 - lon2) * Real.pi / 180 / 2) =
      Real.sin ((lat2 - lat1) * Real.pi / 180 / 2) *
          Real.sin ((lat2 - lat1) * Real.pi / 180 / 2) +
        Real.cos (lat1 * Real.pi / 180) * Real.cos (lat2 * Real.pi / 180) *
          Real.sin ((lon2 - lon1) * Real.pi / 180 / 2) *
          Real.sin ((lon2 - lon1) * Real.pi / 180 / 2) := by
    rw [show (lat1 - lat2) * Real.pi / 180 / 2 = -((lat2 - lat1) * Real.pi / 180 / 2) by
          ring,
        show (lon1 - lon2) * Real.pi / 180 / 2 = -((lon2 - lon1) * Real.pi / 180 / 2) by
          ring,
        Real.sin_neg, Real.sin_neg]
    ring
  rw [ha]

theorem calculateDistance_self (lat lon : ℝ) : calculateDistance lat lon lat lon = 0 := by
  unfold calculateDistance
  rw [show (lat - lat) * Real.pi / 180 / 2 = 0 by ring,
      show (lon - lon) * Real.pi / 180 / 2 = 0 by ring, Real.sin_zero]
  norm_num [atan2, Real.sqrt_zero, Real.sqrt_one, Real.arctan_zero]

theorem cons_eraseIdx_perm :
    ∀ (l : List Order) (i : Nat) (o : Order),
      l[i]? = some o → (o :: l.eraseIdx i).Perm l
  | [], i, o, h => by simp at h
  | a :: l, 0, o, h => by
    simp only [List.getElem?_cons_zero, Option.some.injEq] at h
    subst h
    simp [List.eraseIdx]
  | a :: l, i + 1, o, h => by
    simp only [List.getElem?_cons_succ] at h
    have ih := cons_eraseIdx_perm l i o h
    simpa [List.eraseIdx] using (List.Perm.swap a o (l.eraseIdx i)).trans (ih.cons a)

namespace DeliveryRoutes

theorem buildRoute_perm (d : Dist) (origin : Location) :
    ∀ (fuel : Nat) (route pool : List Order) (cur : Location) (t : ℚ) (idx : Nat),
      ((buildRoute d origin fuel route pool cur t idx).1 ++
        (buildRoute d origin fuel route pool cur t idx).2.1).Perm (route ++ pool) := by
  intro fuel
  induction fuel with
  | zero => intro route pool cur t idx; simp [buildRoute]
  | succ n ih =>
    intro route pool cur t idx
    rw [buildRoute]
    cases hg : pool[idx]? with
    | none => simp
    | some cand =>
      have hperm : ((route ++ [cand]) ++ pool.eraseIdx idx).Perm (route ++ pool) := by
        rw [List.append_assoc]
        exact List.Perm.append_left route (cons_eraseIdx_perm pool idx cand hg)
      by_cases ht : t < 35
      · simp only [if_pos ht]
        by_cases hbr : t + (d cur cand.deliveryLocation * (5 / 2) + 3) +
            d cand.deliveryLocation origin * (5 / 2) > 45 ∧ route ≠ []
        · simp [hbr]
        · simp only [if_neg hbr]
          by_cases he : pool.eraseIdx idx = []
          · simpa [he] using hperm
          · simp only [if_neg he]
            exact (ih _ _ _ _ _).trans hperm
      · simp [ht]

theorem buildRoute_orders_extends (d : Dist) (origin : Location) :
    ∀ (fuel : Nat) (route pool : List Order) (cur : Location) (t : ℚ) (idx : Nat),
      ∃ ext, (buildRoute d origin fuel route pool cur t idx).1 = route ++ ext := by
  intro fuel
  induction fuel with
  | zero => intro route pool cur t idx; exact ⟨[], by simp [buildRoute]⟩
  | succ n ih =>
    intro route pool cur t idx
    rw [buildRoute]
    cases hg : pool[idx]? with
    | none => exact ⟨[], by simp⟩
    | some cand =>
      by_cases ht : t < 35
      · simp only [if_pos ht]
        by_cases hbr : t + (d cur cand.deliveryLocation * (5 / 2) + 3) +
            d cand.deliveryLocation origin * (5 / 2) > 45 ∧ route ≠ []
        · exact ⟨[], by simp [hbr]⟩
        · simp only [if_neg hbr]
          by_cases he : pool.eraseIdx idx = []
          · exact ⟨[cand], by simp [he]⟩
          · simp only [if_neg he]
            obtain ⟨ext, hext⟩ := ih (route ++ [cand]) (pool.eraseIdx idx)
              cand.deliveryLocation
              (t + (d cur cand.deliveryLocation * (5 / 2) + 3))
              (findNearest d cand.deliveryLocation (pool.eraseIdx idx))
            exact ⟨cand :: ext, by simpa using hext⟩
      · exact ⟨[], by simp [ht]⟩

theorem buildRoute_pool_le (d : Dist) (origin : Location) :
    ∀ (fuel : Nat) (route pool : List Order) (cur : Location) (t : ℚ) (idx : Nat),
      ((buildRoute d origin fuel route pool cur t idx).2.1).length ≤ pool.length := by
  intro fuel
  induction fuel with
  | zero => intro route pool cur t idx; simp [buildRoute]
  | succ n ih =>
    intro route pool cur t idx
    rw [buildRoute]
    cases hg : pool[idx]? with
    | none => simp
    | some cand =>
      by_cases ht : t < 35
      · simp only [if_pos ht]
        by_cases hbr : t + (d cur cand.deliveryLocation * (5 / 2) + 3) +
            d cand.deliveryLocation origin * (5 / 2) > 45 ∧ route ≠ []
        · simp [hbr]
        · simp only [if_neg hbr]
          by_cases he : pool.eraseIdx idx = []
          · simp [he]
          · simp only [if_neg he]
            exact le_trans (ih _ _ _ _ _) (List.length_eraseIdx_le _ _)
      · simp [ht]

theorem buildRoute_pool_lt (d : Dist) (origin : Location) (p : Order)
    (ps : List Order) (cur : Location) (fuel : Nat) :
    ((buildRoute d origin (fuel + 1) [] (p :: ps) cur 0 0).2.1).length <
      (p :: ps).length := by
  rw [buildRoute]
  simp only [List.getElem?_cons_zero]
  rw [if_pos (by norm_num : (0 : ℚ) < 35)]
  have hbr : ¬((0 : ℚ) + (d cur p.deliveryLocation * (5 / 2) + 3) +
      d p.deliveryLocation origin * (5 / 2) > 45 ∧ ([] : List Order) ≠ []) := by
    simp
  rw [if_neg hbr]
  simp only [List.eraseIdx_cons_zero]
  by_cases he : ps = []
  · simp [he]
  · rw [if_neg he]
    calc ((buildRoute d origin fuel [p] ps p.deliveryLocation
          (0 + (d cur p.deliveryLocation * (5 / 2) + 3))
          (findNearest d p.deliveryLocation ps)).2.1).length
        ≤ ps.length := buildRoute_pool_le d origin _ _ _ _ _ _
      _ < (p :: ps).length := by simp

theorem buildRoute_seed (d : Dist) (origin : Location) (p : Order)
    (ps : List Order) (cur : Location) (fuel : Nat) :
    ∃ ext, (buildRoute d origin (fuel + 1) [] (p :: ps) cur 0 0).1 = p :: ext := by
  rw [buildRoute]
  simp only [List.getElem?_cons_zero]
  rw [if_pos (by norm_num : (0 : ℚ) < 35)]
  have hbr : ¬((0 : ℚ) + (d cur p.deliveryLocation * (5 / 2) + 3) +
      d p.deliveryLocation origin * (5 / 2) > 45 ∧ ([] : List Order) ≠ []) := by
    simp
  rw [if_neg hbr]
  simp only [List.eraseIdx_cons_zero]
  by_cases he : ps = []
  · exact ⟨[], by simp [he]⟩
  · rw [if_neg he]
    obtain ⟨ext, hext⟩ := buildRoute_orders_extends d origin fuel [p] ps
      p.deliveryLocation (0 + (d cur p.deliveryLocation * (5 / 2) + 3))
      (findNearest d p.deliveryLocation ps)
    exact ⟨ext, by simpa using hext⟩

theorem buildRoute_seed_len (d : Dist) (origin : Location) (p : Order)
    (ps : List Order) (cur : Location) :
    ∃ ext, (buildRoute d origin (p :: ps).length [] (p :: ps) cur 0 0).1 = p :: ext := by
  rw [List.length_cons]
  exact buildRoute_seed d origin p ps cur ps.length

theorem buildRoute_pool_lt_len (d : Dist) (origin : Location) (p : Order)
    (ps : List Order) (cur : Location) :
    ((buildRoute d origin (p :: ps).length [] (p :: ps) cur 0 0).2.1).length <
      (p :: ps).length := by
  have h := buildRoute_pool_lt d origin p ps cur ps.length
  simpa using h

theorem groupLoop_nil (d : Dist) (origin : Location) (fuel c : Nat) :
    groupLoop d origin fuel [] c = [] := by
  cases fuel <;> rfl

theorem groupLoop_zero (d : Dist) (origin : Location) (pool : List Order) (c : Nat) :
    groupLoop d origin 0 pool c = [] := rfl

theorem groupLoop_cons (d : Dist) (origin : Location) (fuel : Nat) (p : Order)
    (ps : List Order) (c : Nat) :
    groupLoop d origin (fuel + 1) (p :: ps) c =
      (⟨s!"route_{c}", s!"Route {c}",
        (buildRoute d origin (p :: ps).length [] (p :: ps) origin 0 0).1,
        ((buildRoute d origin (p :: ps).length [] (p :: ps) origin 0 0).1).foldl
          (fun s o => s + o.totalAmount) 0⟩ : RouteGroup) ::
      groupLoop d origin fuel
        ((buildRoute d origin (p :: ps).length [] (p :: ps) origin 0 0).2.1) (c + 1) := by
  obtain ⟨ext, hext⟩ := buildRoute_seed_len d origin p ps origin
  simp only [groupLoop]
  rw [if_neg (by rw [hext]; exact List.cons_ne_nil p ext)]

theorem groupLoop_perm (d : Dist) (origin : Location) :
    ∀ (fuel : Nat) (pool : List Order) (c : Nat), pool.length ≤ fuel →
      ((groupLoop d origin fuel pool c).flatMap (fun r => r.orders)).Perm pool := by
  intro fuel
  induction fuel with
  | zero =>
    intro pool c h
    have hp : pool = [] := List.length_eq_zero.mp (Nat.le_zero.mp h)
    subst hp
    simp [groupLoop_nil]
  | succ n ih =>
    intro pool c h
    cases pool with
    | nil => simp [groupLoop_nil]
    | cons p ps =>
      rw [groupLoop_cons]
      have hperm := buildRoute_perm d origin (p :: ps).length [] (p :: ps) origin 0 0
      have hlt := buildRoute_pool_lt_len d origin p ps origin
      have hrest : ((buildRoute d origin (p :: ps).length [] (p :: ps) origin
          0 0).2.1).length ≤ n := by
        have hl : (p :: ps).length ≤ n + 1 := h
        omega
      have ihr := ih ((buildRoute d origin (p :: ps).length [] (p :: ps) origin 0 0).2.1)
        (c + 1) hrest
      simp only [List.flatMap_cons]
      exact List.Perm.trans (List.Perm.append_left _ ihr) (by simpa using hperm)

theorem groupLoop_fuel_irrel (d : Dist) (origin : Location) :
    ∀ (f1 : Nat) (pool : List Order) (c : Nat) (f2 : Nat),
      pool.length ≤ f1 → pool.length ≤ f2 →
      groupLoop d origin f1 pool c = groupLoop d origin f2 pool c := by
  intro f1
  induction f1 with
  | zero =>
    intro pool c f2 h1 h2
    have hp : pool = [] := List.length_eq_zero.mp (Nat.le_zero.mp h1)
    subst hp
    rw [groupLoop_nil, groupLoop_nil]
  | succ n ih =>
    intro pool c f2 h1 h2
    cases pool with
    | nil => rw [groupLoop_nil, groupLoop_nil]
    | cons p ps =>
      cases f2 with
      | zero => simp at h2
      | succ m =>
        rw [groupLoop_cons, groupLoop_cons]
        have hlt := buildRoute_pool_lt_len d origin p ps origin
        have hl1 : (p :: ps).length ≤ n + 1 := h1
        have hl2 : (p :: ps).length ≤ m + 1 := h2
        rw [ih ((buildRoute d origin (p :: ps).length [] (p :: ps) origin 0 0).2.1)
          (c + 1) m (by omega) (by omega)]

theorem groupLoop_orders_from_build (d : Dist) (origin : Location) :
    ∀ (fuel : Nat) (pool : List Order) (c : Nat) (r : RouteGroup),
      r ∈ groupLoop d origin fuel pool c →
      ∃ (p : Order) (ps : List Order),
        r.orders = (buildRoute d origin (p :: ps).length [] (p :: ps) origin 0 0).1 := by
  intro fuel
  induction fuel with
  | zero => intro pool c r h; rw [groupLoop_zero] at h; simp at h
  | succ n ih =>
    intro pool c r h
    cases pool with
    | nil => rw [groupLoop_nil] at h; simp at h
    | cons p ps =>
      rw [groupLoop_cons] at h
      rcases List.mem_cons.mp h with h0 | h1
      · exact ⟨p, ps, by rw [h0]⟩
      · exact ih _ _ _ h1

theorem groupLoop_routes_nonempty (d : Dist) (origin : Location) (fuel : Nat)
    (pool : List Order) (c : Nat) (r : RouteGroup)
    (h : r ∈ groupLoop d origin fuel pool c) : r.orders ≠ [] := by
  obtain ⟨p, ps, horders⟩ := groupLoop_orders_from_build d origin fuel pool c r h
  obtain ⟨ext, hext⟩ := buildRoute_seed_len d origin p ps origin
  rw [horders, hext]
  exact List.cons_ne_nil p ext

end DeliveryRoutes

theorem legsTime_append_single (d : Dist) :
    ∀ (stops : List Order) (cur : Location) (o : Order),
      legsTime d cur (stops ++ [o]) =
        legsTime d cur stops +
          (d (endLoc cur stops) o.deliveryLocation * (5 / 2) + 3) := by
  intro stops
  induction stops with
  | nil => intro cur o; simp [legsTime, endLoc]
  | cons a rest ih =>
    intro cur o
    simp only [List.cons_append, legsTime, endLoc, List.append_eq, ih]
    ring

theorem endLoc_append_single :
    ∀ (stops : List Order) (cur : Location) (o : Order),
      endLoc cur (stops ++ [o]) = o.deliveryLocation := by
  intro stops
  induction stops with
  | nil => intro cur o; simp [endLoc]
  | cons a rest ih =>
    intro cur o
    simp only [List.cons_append, endLoc, List.append_eq, ih]

namespace DeliveryRoutes

theorem buildRoute_budget (d : Dist) (origin : Location) :
    ∀ (fuel : Nat) (route pool : List Order) (cur : Location) (t : ℚ) (idx : Nat),
      t = legsTime d origin route →
      cur = endLoc origin route →
      (2 ≤ route.length → t + d cur origin * (5 / 2) ≤ 45) →
      2 ≤ ((buildRoute d origin fuel route pool cur t idx).1).length →
      legsTime d origin ((buildRoute d origin fuel route pool cur t idx).1) +
        d (endLoc origin ((buildRoute d origin fuel route pool cur t idx).1)) origin *
          (5 / 2) ≤ 45 := by
  intro fuel
  induction fuel with
  | zero =>
    intro route pool cur t idx ht hc hinv h2
    simp only [buildRoute] at h2 ⊢
    subst ht; subst hc
    exact hinv h2
  | succ n ih =>
    intro route pool cur t idx ht hc hinv
    rw [buildRoute]
    split
    · intro h2; subst ht; subst hc; exact hinv h2
    · rename_i cand hg
      split
      · rename_i htime
        split
        · intro h2; subst ht; subst hc; exact hinv h2
        · rename_i hbr
          have hproj : 2 ≤ (route ++ [cand]).length →
              (t + (d cur cand.deliveryLocation * (5 / 2) + 3)) +
                d cand.deliveryLocation origin * (5 / 2) ≤ 45 := by
            intro hlen
            cases route with
            | nil => simp at hlen
            | cons r rs =>
              rw [not_and_or] at hbr
              rcases hbr with hbr | hbr
              · push_neg at hbr
                linarith [hbr]
              · exact absurd (List.cons_ne_nil r rs) hbr
          have ht2 : t + (d cur cand.deliveryLocation * (5 / 2) + 3) =
              legsTime d origin (route ++ [cand]) := by
            rw [legsTime_append_single, ← hc, ← ht]
          have hc2 : cand.deliveryLocation = endLoc origin (route ++ [cand]) :=
            (endLoc_append_single route origin cand).symm
          split
          · intro h2
            rw [← ht2, ← hc2] at *
            exact hproj h2
          · exact ih (route ++ [cand]) (pool.eraseIdx idx) cand.deliveryLocation
              (t + (d cur cand.deliveryLocation * (5 / 2) + 3))
              (findNearest d cand.deliveryLocation (pool.eraseIdx idx))
              ht2 hc2 hproj
      · intro h2; subst ht; subst hc; exact hinv h2

end DeliveryRoutes

theorem legsTime_lower (d : Dist)
    (htri : ∀ a b c : Location, d a c ≤ d a b + d b c) :
    ∀ (stops : List Order) (cur : Location), stops ≠ [] →
      d cur (endLoc cur stops) * (5 / 2) + 3 ≤ legsTime d cur stops := by
  intro stops
  induction stops with
  | nil => intro cur h; exact absurd rfl h
  | cons o rest ih =>
    intro cur _
    cases rest with
    | nil => simp [legsTime, endLoc]
    | cons o2 rest2 =>
      have ihr := ih o.deliveryLocation (List.cons_ne_nil o2 rest2)
      have htr := htri cur o.deliveryLocation (endLoc o2.deliveryLocation rest2)
      simp only [legsTime, endLoc] at ihr ⊢
      linarith

namespace DeliveryRoutes

theorem buildRoute_no_new_far (d : Dist) (origin : Location)
    (htri : ∀ a b c : Location, d a c ≤ d a b + d b c) :
    ∀ (fuel : Nat) (route pool : List Order) (cur : Location) (t : ℚ) (idx : Nat),
      route ≠ [] →
      t = legsTime d origin route →
      cur = endLoc origin route →
      ∀ x ∈ (buildRoute d origin fuel route pool cur t idx).1,
        x ∈ route ∨ roundTripTime d origin x ≤ 45 := by
  intro fuel
  induction fuel with
  | zero =>
    intro route pool cur t idx hne ht hc x hx
    simp only [buildRoute] at hx
    exact Or.inl hx
  | succ n ih =>
    intro route pool cur t idx hne ht hc
    rw [buildRoute]
    split
    · intro x hx; exact Or.inl hx
    · rename_i cand hg
      split
      · rename_i htime
        split
        · intro x hx; exact Or.inl hx
        · rename_i hbr
          have hproj : t + (d cur cand.deliveryLocation * (5 / 2) + 3) +
              d cand.deliveryLocation origin * (5 / 2) ≤ 45 := by
            rw [not_and_or] at hbr
            rcases hbr with hbr | hbr
            · push_neg at hbr; exact hbr
            · exact absurd hne hbr
          have hfar : roundTripTime d origin cand ≤ 45 := by
            have hlow := legsTime_lower d htri route origin hne
            have htr := htri origin (endLoc origin route) cand.deliveryLocation
            rw [ht, hc] at hproj
            simp only [roundTripTime]
            linarith
          have ht2 : t + (d cur cand.deliveryLocation * (5 / 2) + 3) =
              legsTime d origin (route ++ [cand]) := by
            rw [legsTime_append_single, ← hc, ← ht]
          have hc2 : cand.deliveryLocation = endLoc origin (route ++ [cand]) :=
            (endLoc_append_single route origin cand).symm
          split
          · intro x hx
            rcases List.mem_append.mp hx with h | h
            · exact Or.inl h
            · rw [List.mem_singleton] at h
              exact Or.inr (h ▸ hfar)
          · intro x hx
            rcases ih (route ++ [cand]) (pool.eraseIdx idx) cand.deliveryLocation
                (t + (d cur cand.deliveryLocation * (5 / 2) + 3))
                (findNearest d cand.deliveryLocation (pool.eraseIdx idx))
                (by simp) ht2 hc2 x hx with h | h
            · rcases List.mem_append.mp h with h1 | h1
              · exact Or.inl h1
              · rw [List.mem_singleton] at h1
                exact Or.inr (h1 ▸ hfar)
            · exact Or.inr h
      · intro x hx; exact Or.inl hx

theorem buildRoute_far_seed (d : Dist) (origin : Location)
    (htri : ∀ a b c : Location, d a c ≤ d a b + d b c)
    (s : Order) (hfar : 45 < roundTripTime d origin s) :
    ∀ (fuel : Nat) (pool : List Order) (idx : Nat),
      (buildRoute d origin fuel [s] pool s.deliveryLocation
        (d origin s.deliveryLocation * (5 / 2) + 3) idx).1 = [s] := by
  intro fuel pool idx
  cases fuel with
  | zero => simp [buildRoute]
  | succ n =>
    rw [buildRoute]
    split
    · rfl
    · rename_i cand hg
      split
      · rename_i htime
        have hproj : d origin s.deliveryLocation * (5 / 2) + 3 +
            (d s.deliveryLocation cand.deliveryLocation * (5 / 2) + 3) +
            d cand.deliveryLocation origin * (5 / 2) > 45 := by
          have htr := htri s.deliveryLocation cand.deliveryLocation origin
          simp only [roundTripTime] at hfar
          linarith
        rw [if_pos ⟨hproj, List.cons_ne_nil s []⟩]
      · rfl

theorem buildRoute_isolated (d : Dist) (origin : Location)
    (htri : ∀ a b c : Location, d a c ≤ d a b + d b c)
    (p : Order) (ps : List Order) :
    ∀ x ∈ (buildRoute d origin (p :: ps).length [] (p :: ps) origin 0 0).1,
      45 < roundTripTime d origin x →
      (buildRoute d origin (p :: ps).length [] (p :: ps) origin 0 0).1 = [x] := by
  rw [List.length_cons, buildRoute]
  simp only [List.getElem?_cons_zero]
  rw [if_pos (by norm_num : (0 : ℚ) < 35)]
  have hbr : ¬((0 : ℚ) + (d origin p.deliveryLocation * (5 / 2) + 3) +
      d p.deliveryLocation origin * (5 / 2) > 45 ∧ ([] : List Order) ≠ []) := by simp
  rw [if_neg hbr]
  simp only [List.eraseIdx_cons_zero, List.nil_append, zero_add]
  by_cases he : ps = []
  · rw [if_pos he]
    intro x hx hfarx
    rw [List.mem_singleton] at hx
    rw [hx]
  · rw [if_neg he]
    intro x hx hfarx
    by_cases hpfar : 45 < roundTripTime d origin p
    · have h3 := buildRoute_far_seed d origin htri p hpfar ps.length ps
        (findNearest d p.deliveryLocation ps)
      rw [h3] at hx ⊢
      rw [List.mem_singleton] at hx
      rw [hx]
    · have ht1 : d origin p.deliveryLocation * (5 / 2) + 3 =
          legsTime d origin [p] := by
        simp [legsTime]
      have hc1 : p.deliveryLocation = endLoc origin [p] := by simp [endLoc]
      rcases buildRoute_no_new_far d origin htri ps.length [p] ps
          p.deliveryLocation (d origin p.deliveryLocation * (5 / 2) + 3)
          (findNearest d p.deliveryLocation ps) (List.cons_ne_nil p [])
          ht1 hc1 x hx with h | h
      · rw [List.mem_singleton] at h
        rw [h] at hfarx
        exact absurd hfarx hpfar
      · exact absurd hfarx (not_lt.mpr h)

theorem buildRoute_rejected_mem (d : Dist) (origin : Location) :
    ∀ (fuel : Nat) (route pool : List Order) (cur : Location) (t : ℚ) (idx : Nat)
      (y : Order),
      (buildRoute d origin fuel route pool cur t idx).2.2 = some y →
      y ∈ (buildRoute d origin fuel route pool cur t idx).2.1 := by
  intro fuel
  induction fuel with
  | zero => intro route pool cur t idx y h; simp [buildRoute] at h
  | succ n ih =>
    intro route pool cur t idx y h
    rw [buildRoute] at h ⊢
    cases hg : pool[idx]? with
    | none =>
      simp only [hg] at h
      exact Option.noConfusion h
    | some cand =>
      simp only [hg] at h ⊢
      by_cases ht : t < 35
      · rw [if_pos ht] at h ⊢
        by_cases hbr : t + (d cur cand.deliveryLocation * (5 / 2) + 3) +
            d cand.deliveryLocation origin * (5 / 2) > 45 ∧ route ≠ []
        · rw [if_pos hbr] at h ⊢
          simp only [Option.some.injEq] at h
          subst h
          rcases List.getElem?_eq_some.mp hg with ⟨hlt, hval⟩
          exact hval ▸ List.getElem_mem hlt
        · rw [if_neg hbr] at h ⊢
          by_cases he : pool.eraseIdx idx = []
          · rw [if_pos he] at h
            simp at h
          · rw [if_neg he] at h ⊢
            exact ih _ _ _ _ _ _ h
      · rw [if_neg ht] at h
        simp at h

theorem findNearestGo_spec (d : Dist) (cur : Location) :
    ∀ (rest : List Order) (i bi : Nat) (b : ℚ),
      (findNearestGo d cur rest i (some b) bi = bi ∧
        ∀ (j : Nat) (oj : Order), rest[j]? = some oj →
          b ≤ d cur oj.deliveryLocation) ∨
      (∃ (k : Nat) (ok : Order), rest[k]? = some ok ∧
        findNearestGo d cur rest i (some b) bi = i + k ∧
        d cur ok.deliveryLocation < b ∧
        (∀ (j : Nat) (oj : Order), rest[j]? = some oj →
          d cur ok.deliveryLocation ≤ d cur oj.deliveryLocation) ∧
        (∀ (j : Nat) (oj : Order), j < k → rest[j]? = some oj →
          d cur ok.deliveryLocation < d cur oj.deliveryLocation)) := by
  intro rest
  induction rest with
  | nil =>
    intro i bi b
    left
    exact ⟨rfl, by intro j oj h; simp at h⟩
  | cons o rest2 ih =>
    intro i bi b
    by_cases hlt : d cur o.deliveryLocation < b
    · rcases ih (i + 1) i (d cur o.deliveryLocation) with
        ⟨heq, hall⟩ | ⟨k, ok, hk, heq, hbest, hmin, hstrict⟩
      · right
        refine ⟨0, o, by simp, ?_, hlt, ?_, ?_⟩
        · simp only [findNearestGo, if_pos hlt]
          rw [heq]; omega
        · intro j oj hj
          cases j with
          | zero => simp at hj; subst hj; exact le_refl _
          | succ j2 =>
            rw [List.getElem?_cons_succ] at hj
            exact hall j2 oj hj
        · intro j oj hj; omega
      · right
        refine ⟨k + 1, ok, by simpa using hk, ?_, lt_trans hbest hlt, ?_, ?_⟩
        · simp only [findNearestGo, if_pos hlt]
          rw [heq]; omega
        · intro j oj hj
          cases j with
          | zero =>
            simp at hj; subst hj
            exact le_of_lt (lt_of_lt_of_le hbest (le_refl _))
          | succ j2 =>
            rw [List.getElem?_cons_succ] at hj
            exact hmin j2 oj hj
        · intro j oj hjk hj
          cases j with
          | zero => simp at hj; subst hj; exact hbest
          | succ j2 =>
            rw [List.getElem?_cons_succ] at hj
            exact hstrict j2 oj (by omega) hj
    · rcases ih (i + 1) bi b with
        ⟨heq, hall⟩ | ⟨k, ok, hk, heq, hbest, hmin, hstrict⟩
      · left
        constructor
        · simp only [findNearestGo, if_neg hlt]
          exact heq
        · intro j oj hj
          cases j with
          | zero => simp at hj; subst hj; exact le_of_not_lt hlt
          | succ j2 =>
            rw [List.getElem?_cons_succ] at hj
            exact hall j2 oj hj
      · right
        refine ⟨k + 1, ok, by simpa using hk, ?_, hbest, ?_, ?_⟩
        · simp only [findNearestGo, if_neg hlt]
          rw [heq]; omega
        · intro j oj hj
          cases j with
          | zero =>
            simp at hj; subst hj
            exact le_of_lt (lt_of_lt_of_le hbest (le_of_not_lt hlt))
          | succ j2 =>
            rw [List.getElem?_cons_succ] at hj
            exact hmin j2 oj hj
        · intro j oj hjk hj
          cases j with
          | zero =>
            simp at hj; subst hj
            exact lt_of_lt_of_le hbest (le_of_not_lt hlt)
          | succ j2 =>
            rw [List.getElem?_cons_succ] at hj
            exact hstrict j2 oj (by omega) hj

theorem findNearest_spec (d : Dist) (cur : Location) (p : Order) (ps : List Order) :
    ∃ ok : Order, (p :: ps)[findNearest d cur (p :: ps)]? = some ok ∧
      (∀ (j : Nat) (oj : Order), (p :: ps)[j]? = some oj →
        d cur ok.deliveryLocation ≤ d cur oj.deliveryLocation) ∧
      (∀ (j : Nat) (oj : Order), j < findNearest d cur (p :: ps) →
        (p :: ps)[j]? = some oj →
        d cur ok.deliveryLocation < d cur oj.deliveryLocation) := by
  have hstep : findNearest d cur (p :: ps) =
      findNearestGo d cur ps 1 (some (d cur p.deliveryLocation)) 0 := rfl
  rcases findNearestGo_spec d cur ps 1 0 (d cur p.deliveryLocation) with
    ⟨heq, hall⟩ | ⟨k, ok, hk, heq, hbest, hmin, hstrict⟩
  · refine ⟨p, ?_, ?_, ?_⟩
    · rw [hstep, heq]; simp
    · intro j oj hj
      cases j with
      | zero => simp at hj; subst hj; exact le_refl _
      | succ j2 =>
        rw [List.getElem?_cons_succ] at hj
        exact hall j2 oj hj
    · intro j oj hjlt hj
      rw [hstep, heq] at hjlt
      omega
  · refine ⟨ok, ?_, ?_, ?_⟩
    · rw [hstep, heq]
      rw [show 1 + k = k + 1 by omega, List.getElem?_cons_succ]
      exact hk
    · intro j oj hj
      cases j with
      | zero => simp at hj; subst hj; exact le_of_lt hbest
      | succ j2 =>
        rw [List.getElem?_cons_succ] at hj
        exact hmin j2 oj hj
    · intro j oj hjlt hj
      rw [hstep, heq] at hjlt
      cases j with
      | zero => simp at hj; subst hj; exact hbest
      | succ j2 =>
        rw [List.getElem?_cons_succ] at hj
        exact hstrict j2 oj (by omega) hj

end DeliveryRoutes

theorem MapboxMap_findNearestGo_eq (d : Dist) (cur : Location) :
    ∀ (rest : List Order) (i : Nat) (b : Option ℚ) (bi : Nat),
      MapboxMap.findNearestGo d cur rest i b bi =
        DeliveryRoutes.findNearestGo d cur rest i b bi := by
  intro rest
  induction rest with
  | nil => intro i b bi; rfl
  | cons o rest2 ih =>
    intro i b bi
    cases b with
    | none =>
      simp only [MapboxMap.findNearestGo, DeliveryRoutes.findNearestGo]
      exact ih (i + 1) (some (d cur o.deliveryLocation)) i
    | some v =>
      simp only [MapboxMap.findNearestGo, DeliveryRoutes.findNearestGo]
      by_cases h : d cur o.deliveryLocation < v
      · rw [if_pos h, if_pos h]
        exact ih (i + 1) (some (d cur o.deliveryLocation)) i
      · rw [if_neg h, if_neg h]
        exact ih (i + 1) (some v) bi

theorem MapboxMap_findNearest_eq (d : Dist) (cur : Location) (pool : List Order) :
    MapboxMap.findNearest d cur pool = DeliveryRoutes.findNearest d cur pool :=
  MapboxMap_findNearestGo_eq d cur pool 0 none 0

theorem MapboxMap_buildRoute_eq (d : Dist) (origin : Location) :
    ∀ (fuel : Nat) (route pool : List Order) (cur : Location) (t : ℚ) (idx : Nat),
      MapboxMap.buildRoute d origin fuel route pool cur t idx =
        DeliveryRoutes.buildRoute d origin fuel route pool cur t idx := by
  intro fuel
  induction fuel with
  | zero => intro route pool cur t idx; rfl
  | succ n ih =>
    intro route pool cur t idx
    rw [MapboxMap.buildRoute, DeliveryRoutes.buildRoute]
    cases hg : pool[idx]? with
    | none => simp only [hg]
    | some cand =>
      simp only [hg]
      by_cases ht : t < 35
      · rw [if_pos ht, if_pos ht]
        by_cases hbr : t + (d cur cand.deliveryLocation * (5 / 2) + 3) +
            d cand.deliveryLocation origin * (5 / 2) > 45 ∧ route ≠ []
        · rw [if_pos hbr, if_pos hbr]
        · rw [if_neg hbr, if_neg hbr]
          by_cases he : pool.eraseIdx idx = []
          · rw [if_pos he, if_pos he]
          · rw [if_neg he, if_neg he, MapboxMap_findNearest_eq]
            exact ih _ _ _ _ _
      · rw [if_neg ht, if_neg ht]

theorem MapboxMap_groupLoop_orders (d : Dist) (origin : Location) :
    ∀ (fuel : Nat) (pool : List Order) (c : Nat),
      (MapboxMap.groupLoop d origin fuel pool c).map (fun r => r.orders) =
        (DeliveryRoutes.groupLoop d origin fuel pool c).map (fun r => r.orders) := by
  intro fuel
  induction fuel with
  | zero => intro pool c; rfl
  | succ n ih =>
    intro pool c
    cases pool with
    | nil => rfl
    | cons p ps =>
      simp only [MapboxMap.groupLoop, DeliveryRoutes.groupLoop, MapboxMap_buildRoute_eq]
      by_cases h : (DeliveryRoutes.buildRoute d origin (p :: ps).length [] (p :: ps)
          origin 0 0).1 = []
      · rw [if_pos h, if_pos h]
        exact ih _ _
      · rw [if_neg h, if_neg h]
        simp only [List.map_cons]
        rw [ih]

theorem Timed_findNearestGo_eq (d : Dist) (cur : Location) :
    ∀ (rest : List Order) (i : Nat) (b : Option ℚ) (bi : Nat),
      DeliveryRoutesTimed.findNearestGo d cur rest i b bi =
        DeliveryRoutes.findNearestGo d cur rest i b bi := by
  intro rest
  induction rest with
  | nil => intro i b bi; rfl
  | cons o rest2 ih =>
    intro i b bi
    cases b with
    | none =>
      simp only [DeliveryRoutesTimed.findNearestGo, DeliveryRoutes.findNearestGo]
      exact ih (i + 1) (some (d cur o.deliveryLocation)) i
    | some v =>
      simp only [DeliveryRoutesTimed.findNearestGo, DeliveryRoutes.findNearestGo]
      by_cases h : d cur o.deliveryLocation < v
      · rw [if_pos h, if_pos h]
        exact ih (i + 1) (some (d cur o.deliveryLocation)) i
      · rw [if_neg h, if_neg h]
        exact ih (i + 1) (some v) bi

theorem Timed_findNearest_eq (d : Dist) (cur : Location) (pool : List Order) :
    DeliveryRoutesTimed.findNearest d cur pool = DeliveryRoutes.findNearest d cur pool :=
  Timed_findNearestGo_eq d cur pool 0 none 0

theorem Timed_buildRoute_eq (d : Dist) (origin : Location) :
    ∀ (fuel : Nat) (route pool : List Order) (cur : Location) (t : ℚ) (idx : Nat),
      DeliveryRoutesTimed.buildRoute d origin fuel route pool cur t idx =
        DeliveryRoutes.buildRoute d origin fuel route pool cur t idx := by
  intro fuel
  induction fuel with
  | zero => intro route pool cur t idx; rfl
  | succ n ih =>
    intro route pool cur t idx
    rw [DeliveryRoutesTimed.buildRoute, DeliveryRoutes.buildRoute]
    cases hg : pool[idx]? with
    | none => simp only [hg]
    | some cand =>
      simp only [hg]
      by_cases ht : t < 35
      · rw [if_pos ht, if_pos ht]
        by_cases hbr : t + (d cur cand.deliveryLocation * (5 / 2) + 3) +
            d cand.deliveryLocation origin * (5 / 2) > 45 ∧ route ≠ []
        · rw [if_pos hbr, if_pos hbr]
        · rw [if_neg hbr, if_neg hbr]
          by_cases he : pool.eraseIdx idx = []
          · rw [if_pos he, if_pos he]
          · rw [if_neg he, if_neg he, Timed_findNearest_eq]
            exact ih _ _ _ _ _
      · rw [if_neg ht, if_neg ht]

theorem Timed_groupLoop_orders (d : Dist) (origin : Location) :
    ∀ (fuel : Nat) (pool : List Order) (c : Nat),
      (DeliveryRoutesTimed.groupLoop d origin fuel pool c).map (fun r => r.orders) =
        (DeliveryRoutes.groupLoop d origin fuel pool c).map (fun r => r.orders) := by
  intro fuel
  induction fuel with
  | zero => intro pool c; rfl
  | succ n ih =>
    intro pool c
    cases pool with
    | nil => rfl
    | cons p ps =>
      simp only [DeliveryRoutesTimed.groupLoop, DeliveryRoutes.groupLoop,
        Timed_buildRoute_eq]
      by_cases h : (DeliveryRoutes.buildRoute d origin (p :: ps).length [] (p :: ps)
          origin 0 0).1 = []
      · rw [if_pos h, if_pos h]
        exact ih _ _
      · rw [if_neg h, if_neg h]
        simp only [List.map_cons]
        rw [ih]

theorem foldl_walk (d : Dist) :
    ∀ (os : List Order) (t0 : ℚ) (cur : Location),
      os.foldl (fun (st : ℚ × Location) o =>
          (st.1 + (d st.2 o.deliveryLocation * (5 / 2) + 3), o.deliveryLocation))
        (t0, cur) =
      (t0 + legsTime d cur os, endLoc cur os) := by
  intro os
  induction os with
  | nil => intro t0 cur; simp [legsTime, endLoc]
  | cons o rest ih =>
    intro t0 cur
    simp only [List.foldl_cons, legsTime, endLoc, ih]
    rw [Prod.mk.injEq]
    exact ⟨by ring, rfl⟩

theorem routeTimeRaw_eq (d : Dist) (orders : List Order) :
    DeliveryRoutesTimed.routeTimeRaw d orders =
      legsTime d restaurantLocation orders +
        d (endLoc restaurantLocation orders) restaurantLocation * (5 / 2) := by
  rw [DeliveryRoutesTimed.routeTimeRaw, foldl_walk]
  simp

theorem Timed_to_DeliveryRoutes (d : Dist) (orders : List Order)
    (r : DeliveryRoutesTimed.RouteGroup)
    (hr : r ∈ DeliveryRoutesTimed.groupOrdersIntoRoutes d orders) :
    ∃ q ∈ DeliveryRoutes.groupOrdersIntoRoutes d orders, q.orders = r.orders := by
  by_cases h : orders = []
  · subst h
    simp [DeliveryRoutesTimed.groupOrdersIntoRoutes] at hr
  · rw [DeliveryRoutesTimed.groupOrdersIntoRoutes, if_neg h] at hr
    rw [DeliveryRoutes.groupOrdersIntoRoutes, if_neg h]
    have hmem : r.orders ∈ (DeliveryRoutesTimed.groupLoop d restaurantLocation
        orders.length orders 1).map (fun r => r.orders) :=
      List.mem_map_of_mem _ hr
    rw [Timed_groupLoop_orders] at hmem
    rcases List.mem_map.mp hmem with ⟨q, hq, heq⟩
    exact ⟨q, hq, heq⟩

theorem Timed_groupLoop_estimated (d : Dist) (origin : Location) :
    ∀ (fuel : Nat) (pool : List Order) (c : Nat) (r : DeliveryRoutesTimed.RouteGroup),
      r ∈ DeliveryRoutesTimed.groupLoop d origin fuel pool c →
      r.estimatedTime = DeliveryRoutesTimed.calculateRouteTime d r.orders := by
  intro fuel
  induction fuel with
  | zero => intro pool c r h; simp [DeliveryRoutesTimed.groupLoop] at h
  | succ n ih =>
    intro pool c r h
    cases pool with
    | nil => simp [DeliveryRoutesTimed.groupLoop] at h
    | cons p ps =>
      simp only [DeliveryRoutesTimed.groupLoop] at h
      by_cases hb : (DeliveryRoutesTimed.buildRoute d origin (p :: ps).length []
          (p :: ps) origin 0 0).1 = []
      · rw [if_pos hb] at h
        exact ih _ _ _ h
      · rw [if_neg hb] at h
        rcases List.mem_cons.mp h with h0 | h1
        · rw [h0]
        · exact ih _ _ _ h1

theorem groupOrders_coverage (d : Dist) (orders : List Order) (x : Order)
    (hx : x ∈ orders) :
    ∃ r ∈ DeliveryRoutes.groupOrdersIntoRoutes d orders, x ∈ r.orders := by
  have hne : orders ≠ [] := List.ne_nil_of_mem hx
  rw [DeliveryRoutes.groupOrdersIntoRoutes, if_neg hne]
  have hperm := DeliveryRoutes.groupLoop_perm d restaurantLocation orders.length
    orders 1 (le_refl _)
  have hxin : x ∈ (DeliveryRoutes.groupLoop d restaurantLocation orders.length
      orders 1).flatMap (fun r => r.orders) := hperm.mem_iff.mpr hx
  rcases List.mem_flatMap.mp hxin with ⟨r, hr, hxr⟩
  exact ⟨r, hr, hxr⟩

theorem groupOrders_budget (d : Dist) (orders : List Order)
    (r : DeliveryRoutes.RouteGroup)
    (hr : r ∈ DeliveryRoutes.groupOrdersIntoRoutes d orders)
    (h2 : 2 ≤ r.orders.length) :
    legsTime d restaurantLocation r.orders +
      d (endLoc restaurantLocation r.orders) restaurantLocation * (5 / 2) ≤ 45 := by
  have hne : orders ≠ [] := by
    intro h; subst h
    simp [DeliveryRoutes.groupOrdersIntoRoutes] at hr
  rw [DeliveryRoutes.groupOrdersIntoRoutes, if_neg hne] at hr
  obtain ⟨p, ps, horders⟩ := DeliveryRoutes.groupLoop_orders_from_build d
    restaurantLocation orders.length orders 1 r hr
  rw [horders] at h2 ⊢
  exact DeliveryRoutes.buildRoute_budget d restaurantLocation (p :: ps).length []
    (p :: ps) restaurantLocation 0 0 rfl rfl (by intro hh; simp at hh) h2

/-- Claim C1: every destination supplied to the batching call appears in
exactly one output route (the concatenation of the output routes' order
lists is a permutation of the input, so no order is lost or duplicated),
every emitted route contains at least one destination, and the empty input
yields an empty route list. -/
theorem partition_covers_each_order_once (d : Dist) (orders : List Order) :
    ((DeliveryRoutes.groupOrdersIntoRoutes d orders).flatMap
      (fun r => r.orders)).Perm orders ∧
    (∀ r ∈ DeliveryRoutes.groupOrdersIntoRoutes d orders, r.orders ≠ []) ∧
    DeliveryRoutes.groupOrdersIntoRoutes d [] = [] := by
  refine ⟨?_, ?_, rfl⟩
  · by_cases h : orders = []
    · subst h; simp [DeliveryRoutes.groupOrdersIntoRoutes]
    · rw [DeliveryRoutes.groupOrdersIntoRoutes, if_neg h]
      exact DeliveryRoutes.groupLoop_perm d restaurantLocation orders.length
        orders 1 (le_refl _)
  · intro r hr
    by_cases h : orders = []
    · subst h; simp [DeliveryRoutes.groupOrdersIntoRoutes] at hr
    · rw [DeliveryRoutes.groupOrdersIntoRoutes, if_neg h] at hr
      exact DeliveryRoutes.groupLoop_routes_nonempty d restaurantLocation _ _ _ r hr

/-- Claim C2: for every output route with at least two stops, split as
`stops ++ [last]` with `stops` nonempty, the time accumulated over the
earlier stops plus the last stop's leg (`distance * 2.5 + 3`) plus its
return leg (`distance * 2.5`) is at most 45 minutes — exactly the guard
the loop checked when it committed the last stop. -/
theorem last_stop_commit_respected_ceiling (d : Dist) (orders : List Order)
    (r : DeliveryRoutes.RouteGroup)
    (hr : r ∈ DeliveryRoutes.groupOrdersIntoRoutes d orders)
    (stops : List Order) (last : Order) (hsplit : r.orders = stops ++ [last])
    (hstops : stops ≠ []) :
    legsTime d restaurantLocation stops +
      (d (endLoc restaurantLocation stops) last.deliveryLocation * (5 / 2) + 3) +
      d last.deliveryLocation restaurantLocation * (5 / 2) ≤ 45 := by
  have hlen : 2 ≤ r.orders.length := by
    rw [hsplit]
    have := List.length_pos.mpr hstops
    rw [List.length_append, List.length_cons]
    omega
  have hb := groupOrders_budget d orders r hr hlen
  rw [hsplit, legsTime_append_single, endLoc_append_single] at hb
  linarith

/-- Claim C3: for an estimator satisfying the triangle inequality (as the
great-circle Haversine does on genuine coordinates), every order is
assigned to some route, and any order whose direct round trip from the
restaurant exceeds 45 minutes has a route consisting of it alone. -/
theorem oversized_destination_isolated (d : Dist)
    (htri : ∀ a b c : Location, d a c ≤ d a b + d b c) (orders : List Order) :
    (∀ x ∈ orders, ∃ r ∈ DeliveryRoutes.groupOrdersIntoRoutes d orders,
      x ∈ r.orders) ∧
    ∀ r ∈ DeliveryRoutes.groupOrdersIntoRoutes d orders, ∀ x ∈ r.orders,
      45 < roundTripTime d restaurantLocation x → r.orders = [x] := by
  constructor
  · intro x hx
    exact groupOrders_coverage d orders x hx
  · intro r hr x hx hfar
    have hne : orders ≠ [] := by
      intro h; subst h
      simp [DeliveryRoutes.groupOrdersIntoRoutes] at hr
    rw [DeliveryRoutes.groupOrdersIntoRoutes, if_neg hne] at hr
    obtain ⟨p, ps, horders⟩ := DeliveryRoutes.groupLoop_orders_from_build d
      restaurantLocation orders.length orders 1 r hr
    rw [horders] at hx ⊢
    exact DeliveryRoutes.buildRoute_isolated d restaurantLocation htri p ps x hx hfar

/-- Claim C4 (amended): when a route's construction stops because adding the
candidate `y` would exceed the 45-minute ceiling, `y` merely stays in the
unassigned pool; the next route is seeded with the *first remaining pool
member in input order* (the head of the returned pool), which is `y` only
when `y` happens to be that earliest member. -/
theorem skipped_order_stays_pooled_next_seed_is_head (d : Dist)
    (origin : Location) (pool : List Order) (y : Order)
    (hrej : (DeliveryRoutes.buildRoute d origin pool.length [] pool origin
      0 0).2.2 = some y) :
    y ∈ (DeliveryRoutes.buildRoute d origin pool.length [] pool origin 0 0).2.1 ∧
    ∀ (p : Order) (ps : List Order),
      (DeliveryRoutes.buildRoute d origin pool.length [] pool origin 0 0).2.1 =
        p :: ps →
      ∃ ext, (DeliveryRoutes.buildRoute d origin (p :: ps).length [] (p :: ps)
        origin 0 0).1 = p :: ext := by
  refine ⟨DeliveryRoutes.buildRoute_rejected_mem d origin pool.length [] pool
    origin 0 0 y hrej, ?_⟩
  intro p ps _
  exact DeliveryRoutes.buildRoute_seed_len d origin p ps origin

/-- Claim C5 (amended): the `estimatedTime` shown for every finished route is
the leg-sum display formula (2.5 minutes per mile plus 3 minutes per stop,
plus the plain return leg) rounded to the nearest integer minute
(`Math.round`, half up) — not that raw sum itself. -/
theorem estimated_time_is_rounded_total (d : Dist) (orders : List Order)
    (r : DeliveryRoutesTimed.RouteGroup)
    (hr : r ∈ DeliveryRoutesTimed.groupOrdersIntoRoutes d orders) :
    r.estimatedTime =
      DeliveryRoutesTimed.jsRound (DeliveryRoutesTimed.routeTimeRaw d r.orders) := by
  have hne' : r.orders ≠ [] := by
    obtain ⟨q, hq, horders⟩ := Timed_to_DeliveryRoutes d orders r hr
    rw [← horders]
    by_cases h : orders = []
    · subst h; simp [DeliveryRoutes.groupOrdersIntoRoutes] at hq
    · rw [DeliveryRoutes.groupOrdersIntoRoutes, if_neg h] at hq
      exact DeliveryRoutes.groupLoop_routes_nonempty d restaurantLocation _ _ _ q hq
  have hne : orders ≠ [] := by
    intro h; subst h
    simp [DeliveryRoutesTimed.groupOrdersIntoRoutes] at hr
  rw [DeliveryRoutesTimed.groupOrdersIntoRoutes, if_neg hne] at hr
  have hest := Timed_groupLoop_estimated d restaurantLocation orders.length
    orders 1 r hr
  rw [hest, DeliveryRoutesTimed.calculateRouteTime, if_neg hne']

/-- Claim C6: after a stop is committed, the next candidate index returned by
the linear nearest-remaining scan points at a pool member whose distance to
the current location is minimal, and every pool member at a smaller index is
strictly farther — i.e. ties are broken by earliest pool order. -/
theorem next_candidate_first_nearest (d : Dist) (cur : Location)
    (pool : List Order) (hp : pool ≠ []) :
    ∃ ok : Order, pool[DeliveryRoutes.findNearest d cur pool]? = some ok ∧
      (∀ (j : Nat) (oj : Order), pool[j]? = some oj →
        d cur ok.deliveryLocation ≤ d cur oj.deliveryLocation) ∧
      (∀ (j : Nat) (oj : Order), j < DeliveryRoutes.findNearest d cur pool →
        pool[j]? = some oj →
        d cur ok.deliveryLocation < d cur oj.deliveryLocation) := by
  obtain ⟨p, ps, rfl⟩ := List.exists_cons_of_ne_nil hp
  exact DeliveryRoutes.findNearest_spec d cur p ps

/-- Claim C7: the Haversine estimator is symmetric in its two points and
returns zero on coincident points. -/
theorem haversine_symmetric_and_zero_on_diagonal (lat1 lon1 lat2 lon2 : ℝ) :
    calculateDistance lat1 lon1 lat2 lon2 = calculateDistance lat2 lon2 lat1 lon1 ∧
    calculateDistance lat1 lon1 lat1 lon1 = 0 :=
  ⟨calculateDistance_symm lat1 lon1 lat2 lon2, calculateDistance_self lat1 lon1⟩

/-- Claim C8: the batching always terminates — every outer iteration starting
from a nonempty pool removes at least one destination (the returned pool is
strictly shorter), and consequently any fuel bound of at least the pool
length yields the same (complete) run of the outer loop. -/
theorem outer_iteration_strictly_shrinks_pool (d : Dist) (origin : Location)
    (pool : List Order) (hp : pool ≠ []) :
    ((DeliveryRoutes.buildRoute d origin pool.length [] pool origin 0 0).2.1).length <
      pool.length ∧
    ∀ (f1 f2 c : Nat), pool.length ≤ f1 → pool.length ≤ f2 →
      DeliveryRoutes.groupLoop d origin f1 pool c =
        DeliveryRoutes.groupLoop d origin f2 pool c := by
  obtain ⟨p, ps, rfl⟩ := List.exists_cons_of_ne_nil hp
  exact ⟨DeliveryRoutes.buildRoute_pool_lt_len d origin p ps origin,
    fun f1 f2 c h1 h2 =>
      DeliveryRoutes.groupLoop_fuel_irrel d origin f1 (p :: ps) c f2 h1 h2⟩

/-- Claim C9: the three duplicated copies of the batching function — in
`DeliveryRoutes.tsx`, `MapboxMap.tsx` and the `part_006` variant — produce
the identical partition: the same orders in the same routes, in the same
visiting order, with routes in the same creation order. -/
theorem three_copies_produce_same_partition (d : Dist) (orders : List Order) :
    (MapboxMap.groupOrdersIntoRoutes d orders).map (fun r => r.orders) =
      (DeliveryRoutes.groupOrdersIntoRoutes d orders).map (fun r => r.orders) ∧
    (DeliveryRoutesTimed.groupOrdersIntoRoutes d orders).map (fun r => r.orders) =
      (DeliveryRoutes.groupOrdersIntoRoutes d orders).map (fun r => r.orders) := by
  by_cases h : orders = []
  · subst h
    exact ⟨rfl, rfl⟩
  · rw [MapboxMap.groupOrdersIntoRoutes, DeliveryRoutes.groupOrdersIntoRoutes,
      DeliveryRoutesTimed.groupOrdersIntoRoutes, if_neg h, if_neg h, if_neg h]
    exact ⟨MapboxMap_groupLoop_orders d restaurantLocation orders.length orders 1,
      Timed_groupLoop_orders d restaurantLocation orders.length orders 1⟩

/-- Claim C10: for every output route with at least two stops, the finished
route's display total *before rounding* (leg sum with 3 minutes per stop
plus the plain return leg) is at most 45 minutes, because the ceiling check
at the last commit was exactly this total. -/
theorem multi_stop_route_raw_total_le_ceiling (d : Dist) (orders : List Order)
    (r : DeliveryRoutesTimed.RouteGroup)
    (hr : r ∈ DeliveryRoutesTimed.groupOrdersIntoRoutes d orders)
    (h2 : 2 ≤ r.orders.length) :
    DeliveryRoutesTimed.routeTimeRaw d r.orders ≤ 45 := by
  obtain ⟨q, hq, horders⟩ := Timed_to_DeliveryRoutes d orders r hr
  rw [routeTimeRaw_eq, ← horders]
  rw [← horders] at h2
  exact groupOrders_budget d orders q hq h2

/-- The taxicab metric on coordinate pairs: a computable estimator satisfying
the triangle inequality, used to instantiate the generic theorems on
concrete inputs. -/
def dL1 : Dist := fun p q => |p.lat - q.lat| + |p.lng - q.lng|

theorem dL1_triangle (a b c : Location) : dL1 a c ≤ dL1 a b + dL1 b c := by
  simp only [dL1]
  have h1 := abs_sub_le a.lat b.lat c.lat
  have h2 := abs_sub_le a.lng b.lng c.lng
  linarith

/-- A constant estimator: every pair of points one tenth of a mile apart. -/
def dTenth : Dist := fun _ _ => 1 / 10

/-- A location `x` degrees of latitude north of the restaurant. -/
def locAt (x : ℚ) : Location := ⟨restaurantLocation.lat + x, restaurantLocation.lng⟩

def oA : Order := ⟨"A", locAt (1 / 10), 0⟩

def oB : Order := ⟨"B", locAt 20, 0⟩

def oC : Order := ⟨"C", locAt 10, 0⟩

def oN1 : Order := ⟨"n1", locAt 1, 0⟩

def oN2 : Order := ⟨"n2", locAt 2, 0⟩

def oE : Order := ⟨"E", restaurantLocation, 5⟩

theorem eval_two_near : DeliveryRoutes.groupOrdersIntoRoutes dL1 [oN1, oN2] =
    [⟨"route_1", "Route 1", [oN1, oN2], 0⟩] := by
  norm_num [DeliveryRoutes.groupOrdersIntoRoutes, DeliveryRoutes.groupLoop,
    DeliveryRoutes.buildRoute, DeliveryRoutes.findNearest,
    DeliveryRoutes.findNearestGo, dL1, locAt, restaurantLocation, oN1, oN2,
    List.eraseIdx, List.cons_ne_nil, abs_of_nonpos, abs_of_nonneg]
  all_goals exact ⟨rfl, rfl⟩

theorem eval_one_far : DeliveryRoutes.groupOrdersIntoRoutes dL1 [oC] =
    [⟨"route_1", "Route 1", [oC], 0⟩] := by
  norm_num [DeliveryRoutes.groupOrdersIntoRoutes, DeliveryRoutes.groupLoop,
    DeliveryRoutes.buildRoute, DeliveryRoutes.findNearest,
    DeliveryRoutes.findNearestGo, dL1, locAt, restaurantLocation, oC,
    List.eraseIdx, List.cons_ne_nil, abs_of_nonpos, abs_of_nonneg]
  all_goals exact ⟨rfl, rfl⟩

theorem eval_reject_run : DeliveryRoutes.buildRoute dL1 restaurantLocation
    ([oA, oB, oC] : List Order).length [] [oA, oB, oC] restaurantLocation 0 0 =
    ([oA], [oB, oC], some oC) := by
  norm_num [DeliveryRoutes.buildRoute, DeliveryRoutes.findNearest,
    DeliveryRoutes.findNearestGo, dL1, locAt, restaurantLocation, oA, oB, oC,
    List.eraseIdx, List.cons_ne_nil, abs_of_nonpos, abs_of_nonneg]

theorem eval_three_orders : (DeliveryRoutes.groupOrdersIntoRoutes dL1
    [oA, oB, oC]).map (fun r => r.orders) = [[oA], [oB], [oC]] := by
  norm_num [DeliveryRoutes.groupOrdersIntoRoutes, DeliveryRoutes.groupLoop,
    DeliveryRoutes.buildRoute, DeliveryRoutes.findNearest,
    DeliveryRoutes.findNearestGo, dL1, locAt, restaurantLocation, oA, oB, oC,
    List.eraseIdx, List.cons_ne_nil, abs_of_nonpos, abs_of_nonneg]

theorem eval_timed_oE : DeliveryRoutesTimed.groupOrdersIntoRoutes dTenth [oE] =
    [⟨"route_1", "Route 1", [oE], 5, 4, "#ef4444"⟩] := by
  norm_num [DeliveryRoutesTimed.groupOrdersIntoRoutes, DeliveryRoutesTimed.groupLoop,
    DeliveryRoutesTimed.buildRoute, DeliveryRoutesTimed.findNearest,
    DeliveryRoutesTimed.findNearestGo, DeliveryRoutesTimed.calculateRouteTime,
    DeliveryRoutesTimed.routeTimeRaw, DeliveryRoutesTimed.jsRound,
    DeliveryRoutesTimed.ROUTE_COLORS, dTenth, oE, List.eraseIdx, List.cons_ne_nil]
  all_goals exact ⟨rfl, rfl⟩

theorem eval_timed_raw_oE : DeliveryRoutesTimed.routeTimeRaw dTenth [oE] = 7 / 2 := by
  norm_num [DeliveryRoutesTimed.routeTimeRaw, dTenth]

theorem eval_timed_two_near : DeliveryRoutesTimed.groupOrdersIntoRoutes dL1
    [oN1, oN2] = [⟨"route_1", "Route 1", [oN1, oN2], 0, 16, "#ef4444"⟩] := by
  norm_num [DeliveryRoutesTimed.groupOrdersIntoRoutes, DeliveryRoutesTimed.groupLoop,
    DeliveryRoutesTimed.buildRoute, DeliveryRoutesTimed.findNearest,
    DeliveryRoutesTimed.findNearestGo, DeliveryRoutesTimed.calculateRouteTime,
    DeliveryRoutesTimed.routeTimeRaw, DeliveryRoutesTimed.jsRound,
    DeliveryRoutesTimed.ROUTE_COLORS, dL1, locAt, restaurantLocation, oN1, oN2,
    List.eraseIdx, List.cons_ne_nil, abs_of_nonpos, abs_of_nonneg]
  all_goals exact ⟨rfl, rfl⟩

def rN : DeliveryRoutes.RouteGroup := ⟨"route_1", "Route 1", [oN1, oN2], 0⟩

def rC3 : DeliveryRoutes.RouteGroup := ⟨"route_1", "Route 1", [oC], 0⟩

def rE : DeliveryRoutesTimed.RouteGroup :=
  ⟨"route_1", "Route 1", [oE], 5, 4, "#ef4444"⟩

def rN10 : DeliveryRoutesTimed.RouteGroup :=
  ⟨"route_1", "Route 1", [oN1, oN2], 0, 16, "#ef4444"⟩

theorem partition_covers_witness :
    ((DeliveryRoutes.groupOrdersIntoRoutes dL1 [oN1, oN2]).flatMap
      (fun r => r.orders)).Perm [oN1, oN2] ∧
    (∀ r ∈ DeliveryRoutes.groupOrdersIntoRoutes dL1 [oN1, oN2], r.orders ≠ []) ∧
    DeliveryRoutes.groupOrdersIntoRoutes dL1 [] = [] :=
  partition_covers_each_order_once dL1 [oN1, oN2]

theorem last_stop_commit_witness :
    rN ∈ DeliveryRoutes.groupOrdersIntoRoutes dL1 [oN1, oN2] ∧
    rN.orders = [oN1] ++ [oN2] ∧
    ([oN1] : List Order) ≠ [] ∧
    legsTime dL1 restaurantLocation [oN1] +
      (dL1 (endLoc restaurantLocation [oN1]) oN2.deliveryLocation * (5 / 2) + 3) +
      dL1 oN2.deliveryLocation restaurantLocation * (5 / 2) ≤ 45 := by
  have hmem : rN ∈ DeliveryRoutes.groupOrdersIntoRoutes dL1 [oN1, oN2] := by
    rw [eval_two_near]
    exact List.mem_singleton.mpr rfl
  exact ⟨hmem, rfl, by simp,
    last_stop_commit_respected_ceiling dL1 [oN1, oN2] rN hmem [oN1] oN2 rfl (by simp)⟩

theorem oversized_isolated_witness :
    (∀ a b c : Location, dL1 a c ≤ dL1 a b + dL1 b c) ∧
    rC3 ∈ DeliveryRoutes.groupOrdersIntoRoutes dL1 [oC] ∧
    oC ∈ rC3.orders ∧
    45 < roundTripTime dL1 restaurantLocation oC ∧
    rC3.orders = [oC] := by
  have hmem : rC3 ∈ DeliveryRoutes.groupOrdersIntoRoutes dL1 [oC] := by
    rw [eval_one_far]
    exact List.mem_singleton.mpr rfl
  have hx : oC ∈ rC3.orders := List.mem_singleton.mpr rfl
  have hfar : 45 < roundTripTime dL1 restaurantLocation oC := by
    norm_num [roundTripTime, dL1, locAt, restaurantLocation, oC,
      abs_of_nonpos, abs_of_nonneg]
  exact ⟨dL1_triangle, hmem, hx, hfar,
    (oversized_destination_isolated dL1 dL1_triangle [oC]).2 rC3 hmem oC hx hfar⟩

/-- Claim C4 counterexample: with the taxicab estimator on the pool
`[oA, oB, oC]`, route 1 is `[oA]` and its construction rejects `oC` — the
nearest remaining order to `oA` — because adding it would exceed the
45-minute ceiling; yet the emitted partition is `[[oA], [oB], [oC]]`, so
route 2 starts with `oB` (the earliest remaining pool member), not with the
skipped `oC`.  The skipped destination is not the seed of the next route. -/
theorem skipped_order_not_next_seed_cex :
    (DeliveryRoutes.buildRoute dL1 restaurantLocation
      ([oA, oB, oC] : List Order).length [] [oA, oB, oC] restaurantLocation
      0 0).2.2 = some oC ∧
    (DeliveryRoutes.groupOrdersIntoRoutes dL1 [oA, oB, oC]).map
      (fun r => r.orders) = [[oA], [oB], [oC]] ∧
    oB ≠ oC := by
  refine ⟨by rw [eval_reject_run], eval_three_orders, ?_⟩
  simp [oB, oC]

theorem skipped_order_next_seed_witness :
    (DeliveryRoutes.buildRoute dL1 restaurantLocation
      ([oA, oB, oC] : List Order).length [] [oA, oB, oC] restaurantLocation
      0 0).2.2 = some oC ∧
    (oC ∈ (DeliveryRoutes.buildRoute dL1 restaurantLocation
        ([oA, oB, oC] : List Order).length [] [oA, oB, oC] restaurantLocation
        0 0).2.1 ∧
      ∀ (p : Order) (ps : List Order),
        (DeliveryRoutes.buildRoute dL1 restaurantLocation
          ([oA, oB, oC] : List Order).length [] [oA, oB, oC] restaurantLocation
          0 0).2.1 = p :: ps →
        ∃ ext, (DeliveryRoutes.buildRoute dL1 restaurantLocation (p :: ps).length
          [] (p :: ps) restaurantLocation 0 0).1 = p :: ext) := by
  have hrej : (DeliveryRoutes.buildRoute dL1 restaurantLocation
      ([oA, oB, oC] : List Order).length [] [oA, oB, oC] restaurantLocation
      0 0).2.2 = some oC := by rw [eval_reject_run]
  exact ⟨hrej, skipped_order_stays_pooled_next_seed_is_head dL1 restaurantLocation
    [oA, oB, oC] oC hrej⟩

/-- Claim C5 counterexample: for the one-stop route built from `oE` under the
constant estimator, the displayed `estimatedTime` is 4 minutes while the
display formula's unrounded leg-sum-plus-return value is 3.5 minutes, so the
displayed value does not equal that sum — `calculateRouteTime` rounds it. -/
theorem estimated_time_not_raw_total_cex :
    DeliveryRoutesTimed.groupOrdersIntoRoutes dTenth [oE] = [rE] ∧
    (rE.estimatedTime : ℚ) = 4 ∧
    DeliveryRoutesTimed.routeTimeRaw dTenth [oE] = 7 / 2 ∧
    ((4 : ℚ) ≠ 7 / 2) := by
  exact ⟨by rw [eval_timed_oE, rE], by norm_num [rE], eval_timed_raw_oE, by norm_num⟩

theorem estimated_time_rounded_witness :
    rE ∈ DeliveryRoutesTimed.groupOrdersIntoRoutes dTenth [oE] ∧
    rE.estimatedTime =
      DeliveryRoutesTimed.jsRound
        (DeliveryRoutesTimed.routeTimeRaw dTenth rE.orders) := by
  have hmem : rE ∈ DeliveryRoutesTimed.groupOrdersIntoRoutes dTenth [oE] := by
    rw [eval_timed_oE]
    exact List.mem_singleton.mpr rfl
  exact ⟨hmem, estimated_time_is_rounded_total dTenth [oE] rE hmem⟩

theorem next_candidate_witness :
    ([oN1, oN2] : List Order) ≠ [] ∧
    (∃ ok : Order,
      ([oN1, oN2] : List Order)[DeliveryRoutes.findNearest dL1 restaurantLocation
        [oN1, oN2]]? = some ok ∧
      (∀ (j : Nat) (oj : Order), ([oN1, oN2] : List Order)[j]? = some oj →
        dL1 restaurantLocation ok.deliveryLocation ≤
          dL1 restaurantLocation oj.deliveryLocation) ∧
      (∀ (j : Nat) (oj : Order),
        j < DeliveryRoutes.findNearest dL1 restaurantLocation [oN1, oN2] →
        ([oN1, oN2] : List Order)[j]? = some oj →
        dL1 restaurantLocation ok.deliveryLocation <
          dL1 restaurantLocation oj.deliveryLocation)) :=
  ⟨by simp, next_candidate_first_nearest dL1 restaurantLocation [oN1, oN2] (by simp)⟩

theorem haversine_witness :
    calculateDistance 1 2 3 4 = calculateDistance 3 4 1 2 ∧
    calculateDistance 1 2 1 2 = 0 :=
  haversine_symmetric_and_zero_on_diagonal 1 2 3 4

theorem outer_shrinks_witness :
    ([oN1] : List Order) ≠ [] ∧
    ((((DeliveryRoutes.buildRoute dL1 restaurantLocation
        ([oN1] : List Order).length [] [oN1] restaurantLocation 0 0).2.1).length <
      ([oN1] : List Order).length) ∧
      ∀ (f1 f2 c : Nat), ([oN1] : List Order).length ≤ f1 →
        ([oN1] : List Order).length ≤ f2 →
        DeliveryRoutes.groupLoop dL1 restaurantLocation f1 [oN1] c =
          DeliveryRoutes.groupLoop dL1 restaurantLocation f2 [oN1] c) :=
  ⟨by simp,
    outer_iteration_strictly_shrinks_pool dL1 restaurantLocation [oN1] (by simp)⟩

theorem three_copies_witness :
    (MapboxMap.groupOrdersIntoRoutes dL1 [oA, oB, oC]).map (fun r => r.orders) =
      (DeliveryRoutes.groupOrdersIntoRoutes dL1 [oA, oB, oC]).map
        (fun r => r.orders) ∧
    (DeliveryRoutesTimed.groupOrdersIntoRoutes dL1 [oA, oB, oC]).map
        (fun r => r.orders) =
      (DeliveryRoutes.groupOrdersIntoRoutes dL1 [oA, oB, oC]).map
        (fun r => r.orders) :=
  three_copies_produce_same_partition dL1 [oA, oB, oC]

theorem multi_stop_total_witness :
    rN10 ∈ DeliveryRoutesTimed.groupOrdersIntoRoutes dL1 [oN1, oN2] ∧
    2 ≤ rN10.orders.length ∧
    DeliveryRoutesTimed.routeTimeRaw dL1 rN10.orders ≤ 45 := by
  have hmem : rN10 ∈ DeliveryRoutesTimed.groupOrdersIntoRoutes dL1 [oN1, oN2] := by
    rw [eval_timed_two_near]
    exact List.mem_singleton.mpr rfl
  exact ⟨hmem, by norm_num [rN10],
    multi_stop_route_raw_total_le_ceiling dL1 [oN1, oN2] rN10 hmem
      (by norm_num [rN10])⟩

end Pizza
